import Mathlib

set_option maxRecDepth 1024

/-!
Verification of the core state machines of an AMQP 1.0 protocol engine
(ntex-amqp): sender-link credit and pending-transfer queueing (src/link.rs),
receiver-link credit admission (src/rcvlink.rs), the idle-timeout heartbeat
(src/hb.rs), the server handshake (src/server/factory.rs) and the Variant
hashing (src/types/variant.rs).

Machine integers: the Rust code works on `u32` counters (`delivery_count`,
`link_credit`, `credit`).  They are embedded as `Nat` together with the
wrapping operations `u32add`/`u32sub` (release-mode two's-complement
semantics, i.e. arithmetic modulo 2^32).
-/

/-- 2^32, the modulus of Rust `u32` arithmetic. -/
def U32 : Nat := 4294967296

/-- Wrapping `u32` addition. -/
def u32add (a b : Nat) : Nat := (a + b) % U32

/-- Wrapping `u32` subtraction (for `a b < U32` this is two's-complement
`a.wrapping_sub b`). -/
def u32sub (a b : Nat) : Nat := (a + U32 - b) % U32

namespace Sender

/-- The link-scoped fields of an inbound Flow performative used by
`SenderLinkInner::apply_flow` (src/link.rs): `delivery_count` and
`link_credit` are optional on the wire, `echo` requests a reply. -/
structure Flow where
  delivery_count : Option Nat
  link_credit : Option Nat
  echo : Bool
deriving DecidableEq

/-- `SenderLinkInner` (src/link.rs): delivery counter, peer-granted credit,
FIFO queue of pending transfers (represented by their message/promise ids)
and the terminal error.  The `id`, `name`, `session` and `remote_handle`
fields play no role in the verified operations and are omitted. -/
structure SenderLinkInner where
  delivery_count : Nat
  link_credit : Nat
  pending_transfers : List Nat
  error : Option Nat
deriving DecidableEq

/-- Observable actions of a sender link: `emitted m p` records that message
`m` was handed to the session (`send_transfer`) while `link_credit` was `p`
just before the decrement; `failed m e` records that the pending promise of
`m` was failed with error `e`. -/
inductive SendEvent where
  | emitted (m : Nat) (preCredit : Nat)
  | failed (m : Nat) (err : Nat)
deriving DecidableEq

/-- The drain loop of `apply_flow` (src/link.rs lines 112-124): pop the
front pending transfer, decrement `link_credit`, increment `delivery_count`,
hand the transfer to the session, and stop as soon as credit hits zero or
the queue empties.  Returns (events, link_credit, delivery_count, queue). -/
def drainPending : Nat → Nat → List Nat → List SendEvent × Nat × Nat × List Nat
  | credit, dc, [] => ([], credit, dc, [])
  | credit, dc, m :: rest =>
    let c := u32sub credit 1
    let d := u32add dc 1
    if c = 0 then
      ([SendEvent.emitted m credit], c, d, rest)
    else
      let r := drainPending c d rest
      (SendEvent.emitted m credit :: r.1, r.2.1, r.2.2.1, r.2.2.2)

/-- The effective credit delta computed by `apply_flow` (src/link.rs line
104): `(flow.delivery_count.unwrap_or(0) + flow.link_credit) -
(self.delivery_count + self.link_credit)` in wrapping `u32` arithmetic. -/
def effDelta (s : SenderLinkInner) (f : Flow) : Nat :=
  u32sub (u32add (f.delivery_count.getD 0) (f.link_credit.getD 0))
    (u32add s.delivery_count s.link_credit)

/-- `SenderLinkInner::apply_flow` (src/link.rs lines 102-134).  When the
Flow carries `link_credit`: if the computed delta is positive the credit is
increased and, when the previous credit was zero, the pending queue is
drained; otherwise the code executes
`link_credit += max(0, link_credit + delta)`. -/
def apply_flow (s : SenderLinkInner) (f : Flow) : SenderLinkInner × List SendEvent :=
  match f.link_credit with
  | Option.none => (s, [])
  | Option.some credit =>
    let delta := u32sub (u32add (f.delivery_count.getD 0) credit)
      (u32add s.delivery_count s.link_credit)
    if 0 < delta then
      let old_credit := s.link_credit
      let newCredit := u32add s.link_credit delta
      if old_credit = 0 then
        let r := drainPending newCredit s.delivery_count s.pending_transfers
        ({ s with link_credit := r.2.1, delivery_count := r.2.2.1,
                  pending_transfers := r.2.2.2 }, r.1)
      else
        ({ s with link_credit := newCredit }, [])
    else
      ({ s with link_credit := u32add s.link_credit (max 0 (u32add s.link_credit delta)) }, [])

/-- `SenderLinkInner::send` (src/link.rs lines 136-151): with zero credit
the message is queued at the tail of `pending_transfers`; otherwise credit
is decremented, `delivery_count` incremented and the transfer handed to the
session.  The error field is not consulted. -/
def send (s : SenderLinkInner) (m : Nat) : SenderLinkInner × List SendEvent :=
  if s.link_credit = 0 then
    ({ s with pending_transfers := s.pending_transfers ++ [m] }, [])
  else
    ({ s with link_credit := u32sub s.link_credit 1,
              delivery_count := u32add s.delivery_count 1 },
     [SendEvent.emitted m s.link_credit])

/-- `SenderLinkInner::detached` (src/link.rs lines 84-91): every pending
transfer's promise is failed with the error and the error is recorded. -/
def detached (s : SenderLinkInner) (err : Nat) : SenderLinkInner × List SendEvent :=
  ({ s with pending_transfers := [], error := Option.some err },
   s.pending_transfers.map (fun m => SendEvent.failed m err))

/-- Operations a sender link undergoes: a `send` call, an inbound Flow
routed to `apply_flow`, or a detach. -/
inductive Op where
  | send (m : Nat)
  | flow (f : Flow)
  | detach (err : Nat)
deriving DecidableEq

/-- One step of the sender link, accumulating emitted/failed events. -/
def stepAcc (st : SenderLinkInner × List SendEvent) (op : Op) :
    SenderLinkInner × List SendEvent :=
  match op with
  | Op.send m => let r := send st.1 m; (r.1, st.2 ++ r.2)
  | Op.flow f => let r := apply_flow st.1 f; (r.1, st.2 ++ r.2)
  | Op.detach e => let r := detached st.1 e; (r.1, st.2 ++ r.2)

/-- Run a list of operations from an accumulator state. -/
def runFrom (st : SenderLinkInner × List SendEvent) : List Op → SenderLinkInner × List SendEvent
  | [] => st
  | op :: rest => runFrom (stepAcc st op) rest

/-- The freshly attached sender link (`SenderLinkInner::new`, src/link.rs):
zero delivery count, zero credit, empty queue, no error. -/
def init : SenderLinkInner :=
  { delivery_count := 0, link_credit := 0, pending_transfers := [], error := Option.none }

/-- Run a list of operations on a fresh sender link. -/
def run (ops : List Op) : SenderLinkInner × List SendEvent :=
  runFrom (init, []) ops

/-- The messages passed to `send` by a list of operations, in call order. -/
def sentMsgs (ops : List Op) : List Nat :=
  ops.filterMap (fun op => match op with | Op.send m => Option.some m | _ => Option.none)

/-- The message id of an event. -/
def SendEvent.id : SendEvent → Nat
  | SendEvent.emitted m _ => m
  | SendEvent.failed m _ => m

/-- Whether an event is a transfer emission to the session. -/
def SendEvent.isEmitted : SendEvent → Bool
  | SendEvent.emitted _ _ => true
  | SendEvent.failed _ _ => false

/-- Whether an operation is a detach. -/
def Op.isDetach : Op → Bool
  | Op.detach _ => true
  | _ => false

/-- Whether an operation is a send. -/
def Op.isSend : Op → Bool
  | Op.send _ => true
  | _ => false

end Sender

example :
    (Sender.run [Sender.Op.send 1, Sender.Op.send 2,
      Sender.Op.flow { delivery_count := Option.some 0, link_credit := Option.some 1, echo := false }]).1.pending_transfers = [2] := by
  decide

example :
    (Sender.run [Sender.Op.flow { delivery_count := Option.some 0, link_credit := Option.some 5, echo := false },
      Sender.Op.flow { delivery_count := Option.some 0, link_credit := Option.some 5, echo := false }]).1.link_credit = 10 := by
  decide

namespace Receiver

/-- AMQP link error conditions used by the receiver (amqp_codec's
`LinkError`); `handle_transfer` raises `amqp:link:transfer-limit-exceeded`. -/
inductive ErrorCond where
  | transferLimitExceeded
deriving DecidableEq

/-- `ReceiverLinkInner` (src/rcvlink.rs): the local handle, granted credit,
delivery counter, FIFO ingress queue of transfers (by id), the `closed`
flag and whether a reader task is registered (`AtomicTask`).  The `attach`
frame and session back-pointer are omitted. -/
structure ReceiverLinkInner where
  handle : Nat
  credit : Nat
  delivery_count : Nat
  queue : List Nat
  closed : Bool
  registered : Bool
deriving DecidableEq

/-- Observable receiver actions: a link-scoped Flow posted to the session
(`rcv_link_flow`), a Detach posted with an error, admission of a transfer
into the queue, and a reader wake-up (`AtomicTask::notify`). -/
inductive RcvEvent where
  | flowSent (handle dc credit : Nat)
  | detachSent (err : ErrorCond)
  | admitted (t : Nat)
  | wake
deriving DecidableEq

/-- Modelled from the spec: `SessionInner::detach_receiver_link` (the
session module is not among the sources) posts a Detach performative
carrying the closing error and the link moves to its terminal state, so the
`closed` flag is set.  Faithful to spec section 4.4: a credit violation
"causes the receiver to detach the link with transfer-limit-exceeded; the
link moves to terminal error". -/
def detach_receiver_link (s : ReceiverLinkInner) (err : Option ErrorCond) :
    ReceiverLinkInner × List RcvEvent :=
  ({ s with closed := true },
   match err with
   | Option.some e => [RcvEvent.detachSent e]
   | Option.none => [])

/-- `ReceiverLinkInner::close` (src/rcvlink.rs lines 138-156): when already
closed the close-promise resolves immediately and nothing is posted,
otherwise the link is detached through the session. -/
def close (s : ReceiverLinkInner) (err : Option ErrorCond) :
    ReceiverLinkInner × List RcvEvent :=
  if s.closed then (s, []) else detach_receiver_link s err

/-- Modelled from the spec: `SessionInner::rcv_link_flow` (session module
not among the sources) "emits a link-scoped Flow carrying (handle,
delivery_count, credit)" built verbatim from its three arguments
(spec section 4.4, set_link_credit). -/
def rcv_link_flow (handle dc credit : Nat) : RcvEvent :=
  RcvEvent.flowSent handle dc credit

/-- `ReceiverLinkInner::set_link_credit` (src/rcvlink.rs lines 158-164):
adds the increment to the local credit counter and posts a link-scoped Flow
built from the handle, the current delivery count and the increment. -/
def set_link_credit (s : ReceiverLinkInner) (n : Nat) :
    ReceiverLinkInner × List RcvEvent :=
  ({ s with credit := u32add s.credit n },
   [rcv_link_flow s.handle s.delivery_count n])

/-- `ReceiverLinkInner::handle_transfer` (src/rcvlink.rs lines 166-183):
with zero credit the transfer is dropped and the link closed with
`transfer-limit-exceeded`; otherwise credit is decremented, the delivery
count incremented, the transfer appended to the ingress queue and the
reader notified when the queue was previously empty. -/
def handle_transfer (s : ReceiverLinkInner) (t : Nat) :
    ReceiverLinkInner × List RcvEvent :=
  if s.credit = 0 then
    close s (Option.some ErrorCond.transferLimitExceeded)
  else
    if (s.queue ++ [t]).length = 1 then
      ({ s with credit := u32sub s.credit 1,
                delivery_count := u32add s.delivery_count 1,
                queue := s.queue ++ [t], registered := false },
       [RcvEvent.admitted t, RcvEvent.wake])
    else
      ({ s with credit := u32sub s.credit 1,
                delivery_count := u32add s.delivery_count 1,
                queue := s.queue ++ [t] },
       [RcvEvent.admitted t])

/-- The result of one `Stream::poll` on a `ReceiverLink`. -/
inductive PollResult where
  | ready (t : Option Nat)
  | notReady
deriving DecidableEq

/-- `impl Stream for ReceiverLink`, `poll` (src/rcvlink.rs lines 85-103):
pop the front of the queue when non-empty; when empty return `None` if
closed, otherwise register the reader task and report not-ready. -/
def poll (s : ReceiverLinkInner) : PollResult × ReceiverLinkInner :=
  match s.queue with
  | t :: rest => (PollResult.ready (Option.some t), { s with queue := rest })
  | [] =>
    if s.closed then (PollResult.ready Option.none, s)
    else (PollResult.notReady, { s with registered := true })

/-- Operations driving a receiver link: a credit grant
(`set_link_credit`), an inbound Transfer (`handle_transfer`) or a reader
`poll`. -/
inductive Op where
  | grant (n : Nat)
  | transfer (t : Nat)
  | poll
deriving DecidableEq

/-- One receiver step, accumulating events. -/
def stepAcc (st : ReceiverLinkInner × List RcvEvent) (op : Op) :
    ReceiverLinkInner × List RcvEvent :=
  match op with
  | Op.grant n => let r := set_link_credit st.1 n; (r.1, st.2 ++ r.2)
  | Op.transfer t => let r := handle_transfer st.1 t; (r.1, st.2 ++ r.2)
  | Op.poll => let r := poll st.1; (r.2, st.2)

/-- Run receiver operations from an accumulator state. -/
def runFrom (st : ReceiverLinkInner × List RcvEvent) : List Op → ReceiverLinkInner × List RcvEvent
  | [] => st
  | op :: rest => runFrom (stepAcc st op) rest

/-- A freshly attached receiver link (`ReceiverLinkInner::new`,
src/rcvlink.rs): zero credit, delivery count from the Attach (taken as 0),
empty queue, open. -/
def initRcv : ReceiverLinkInner :=
  { handle := 0, credit := 0, delivery_count := 0, queue := [],
    closed := false, registered := false }

/-- Run receiver operations on a fresh receiver link. -/
def run (ops : List Op) : ReceiverLinkInner × List RcvEvent :=
  runFrom (initRcv, []) ops

/-- Total credit granted by the `grant` operations of a list. -/
def grantedSum : List Op → Nat
  | [] => 0
  | Op.grant n :: rest => n + grantedSum rest
  | _ :: rest => grantedSum rest

/-- Number of transfers admitted into the ingress queue (one `admitted`
event each). -/
def admittedCount (evts : List RcvEvent) : Nat :=
  (evts.filter (fun e => match e with | RcvEvent.admitted _ => true | _ => false)).length

end Receiver

example :
    (Receiver.run [Receiver.Op.grant 1, Receiver.Op.transfer 7,
      Receiver.Op.transfer 8]).2 =
    [Receiver.RcvEvent.flowSent 0 0 1, Receiver.RcvEvent.admitted 7,
     Receiver.RcvEvent.wake,
     Receiver.RcvEvent.detachSent Receiver.ErrorCond.transferLimitExceeded] := by
  decide

example :
    (Receiver.run [Receiver.Op.grant 5, Receiver.Op.grant 3]).2 =
    [Receiver.RcvEvent.flowSent 0 0 5, Receiver.RcvEvent.flowSent 0 0 3] := by
  decide

namespace Hb

/-- The three outputs of the heartbeat state machine
(`HeartbeatAction`, src/hb.rs). -/
inductive HeartbeatAction where
  | none
  | heartbeat
  | close
deriving DecidableEq

/-- `Heartbeat` (src/hb.rs): last inbound-activity instant `expire_local`,
last outbound-activity instant `expire_remote`, the local idle deadline
`local`, the optional remote idle deadline `remote`, and the deadline of
the armed timer (`Delay::deadline`).  Instants and durations are `Nat`
time-points. -/
structure Heartbeat where
  expire_local : Nat
  expire_remote : Nat
  localDl : Nat
  remote : Option Nat
  deadline : Nat
deriving DecidableEq

/-- `Heartbeat::next_expire` (src/hb.rs lines 55-61). -/
def next_expire (s : Heartbeat) : Nat :=
  match s.remote with
  | Option.some r => min (s.expire_local + s.localDl) (s.expire_remote + r)
  | Option.none => s.expire_local + s.localDl

/-- `Heartbeat::update_remote` (src/hb.rs lines 49-53): on outbound
activity at `now`, reset `expire_remote` (only when a remote deadline is
configured). -/
def update_remote (s : Heartbeat) (now : Nat) (upd : Bool) : Heartbeat :=
  if upd ∧ s.remote.isSome then { s with expire_remote := now } else s

/-- `Heartbeat::poll` on a fired timer (src/hb.rs lines 63-88, the
`Ready` arm with `dl = delay.deadline()`): close when the local deadline
`expire_local + local` has been reached, otherwise emit a heartbeat when
the remote deadline `expire_remote + remote` has been reached, otherwise
nothing; except for the close case the timer is re-armed at
`next_expire`. -/
def pollHb (s : Heartbeat) : HeartbeatAction × Heartbeat :=
  if s.expire_local + s.localDl ≤ s.deadline then
    (HeartbeatAction.close, s)
  else
    let act : HeartbeatAction :=
      match s.remote with
      | Option.some r =>
        if s.expire_remote + r ≤ s.deadline then HeartbeatAction.heartbeat
        else HeartbeatAction.none
      | Option.none => HeartbeatAction.none
    (act, { s with deadline := next_expire s })

/-- Modelled from the spec: the connection dispatcher that reacts to a
`HeartbeatAction` is not among the sources; per spec section 4.1 a
`Heartbeat` action makes it write an empty frame, and "on every outbound
frame, reset expire-remote", i.e. `update_remote` runs with the current
instant.  A full timer tick is therefore `poll` followed by that reset
when a heartbeat is emitted. -/
def tick (s : Heartbeat) (now : Nat) : HeartbeatAction × Heartbeat :=
  let r := pollHb s
  match r.1 with
  | HeartbeatAction.heartbeat => (HeartbeatAction.heartbeat, update_remote r.2 now true)
  | a => (a, r.2)

end Hb

namespace Handshake

/-- Protocol header ids (`ProtocolId`): 0 = plain AMQP, 2 = SASL,
3 = TLS. -/
inductive ProtocolId where
  | amqp
  | amqpSasl
  | amqpTls
deriving DecidableEq

/-- The Open performative's negotiated fields that the handshake
exchanges. -/
structure Open where
  container_id : Nat
  idle_time_out : Option Nat
deriving DecidableEq

/-- An AMQP frame body as seen by `open_connection`: either an Open
performative or any other performative (by tag). -/
inductive Frame where
  | open (o : Open)
  | other (tag : Nat)
deriving DecidableEq

/-- `HandshakeError` (src/server/errors.rs via factory.rs): a protocol
header mismatch carries the expected and received ids
(`ProtocolIdError::Unexpected`), end-of-stream is `Disconnected`, and a
non-Open first frame is `Unexpected(frame)`. -/
inductive HandshakeError where
  | protoUnexpected (exp got : ProtocolId)
  | unexpectedFrame (f : Frame)
  | disconnected
deriving DecidableEq

/-- The local configuration; `cfg.to_open(None)` builds the local Open. -/
structure Configuration where
  localOpen : Open
deriving DecidableEq

/-- Everything the handshake writes to the stream: a protocol header or an
AMQP frame on a channel. -/
inductive Sent where
  | header (p : ProtocolId)
  | frame (channel : Nat) (f : Frame)
deriving DecidableEq

/-- The established connection: local configuration plus the peer's
Open. -/
structure Connection where
  cfg : Configuration
  remoteOpen : Open
deriving DecidableEq

/-- `open_connection` (src/server/factory.rs lines 198-233): read the
first AMQP frame; end-of-stream fails with `Disconnected`, a non-Open
performative fails with `Unexpected`, an Open is answered by the local
Open sent on channel 0 and yields the connection. -/
def open_connection (cfg : Configuration) (frameIn : Option Frame) :
    Except HandshakeError Connection × List Sent :=
  match frameIn with
  | Option.none => (Except.error HandshakeError.disconnected, [])
  | Option.some f =>
    match f with
    | Frame.open o =>
      (Except.ok { cfg := cfg, remoteOpen := o },
       [Sent.frame 0 (Frame.open cfg.localOpen)])
    | f => (Except.error (HandshakeError.unexpectedFrame f), [])

/-- `handshake` (src/server/factory.rs lines 164-196): read the first
protocol header; end-of-stream fails with `Disconnected`, a header other
than plain AMQP fails with `Unexpected(expected, got)`, the plain-AMQP
header is echoed back and the Open exchange of `open_connection` runs. -/
def handshake (cfg : Configuration) (hdr : Option ProtocolId)
    (frameIn : Option Frame) : Except HandshakeError Connection × List Sent :=
  match hdr with
  | Option.none => (Except.error HandshakeError.disconnected, [])
  | Option.some p =>
    if p = ProtocolId.amqp then
      let r := open_connection cfg frameIn
      (r.1, Sent.header ProtocolId.amqp :: r.2)
    else
      (Except.error (HandshakeError.protoUnexpected ProtocolId.amqp p), [])

/-- Whether a written item is an Open performative frame. -/
def Sent.isOpenFrame : Sent → Bool
  | Sent.frame _ (Frame.open _) => true
  | _ => false

end Handshake

namespace Types

/-- `Variant` (src/types/variant.rs): an AMQP polymorphic value.  Scalar
payloads are represented by their raw data (floats by their bit patterns,
strings by `String`, binary by byte lists); `VariantMap`'s `HashMap` is
represented by its entry list, and `Described` carries a descriptor code
and a boxed inner variant. -/
inductive Variant where
  | null
  | boolean (b : Bool)
  | ubyte (n : Nat)
  | ushort (n : Nat)
  | uint (n : Nat)
  | ulong (n : Nat)
  | byte (i : Int)
  | short (i : Int)
  | int (i : Int)
  | long (i : Int)
  | float (bits : Nat)
  | double (bits : Nat)
  | char (c : Nat)
  | timestamp (millis : Int)
  | uuid (u : Nat)
  | binary (bytes : List Nat)
  | str (s : String)
  | symbol (s : String)
  | staticSymbol (s : String)
  | list (xs : List Variant)
  | map (entries : List (Variant × Variant))
  | described (descriptor : Nat) (v : Variant)

/-- A simple hash combinator standing for `Hasher::write`. -/
def mix (a b : Nat) : Nat := a * 1000003 + b

mutual

/-- The derived `Hash` for `Variant` (src/types/variant.rs, `#[derive(Hash)]`),
made partial because `impl Hash for VariantMap` is `unimplemented!()`
(lines 163-167): hashing any `Map` panics, and the panic propagates through
the containers (`List` hashes its elements, `Described` hashes its inner
variant), which is modelled by `Option.none`. -/
def hashVariant : Variant → Option Nat
  | Variant.null => Option.some (mix 0 0)
  | Variant.boolean b => Option.some (mix 1 (cond b 1 0))
  | Variant.ubyte n => Option.some (mix 2 n)
  | Variant.ushort n => Option.some (mix 3 n)
  | Variant.uint n => Option.some (mix 4 n)
  | Variant.ulong n => Option.some (mix 5 n)
  | Variant.byte i => Option.some (mix 6 i.natAbs)
  | Variant.short i => Option.some (mix 7 i.natAbs)
  | Variant.int i => Option.some (mix 8 i.natAbs)
  | Variant.long i => Option.some (mix 9 i.natAbs)
  | Variant.float bits => Option.some (mix 10 bits)
  | Variant.double bits => Option.some (mix 11 bits)
  | Variant.char c => Option.some (mix 12 c)
  | Variant.timestamp t => Option.some (mix 13 t.natAbs)
  | Variant.uuid u => Option.some (mix 14 u)
  | Variant.binary bs => Option.some (mix 15 (bs.foldl mix 0))
  | Variant.str s => Option.some (mix 16 s.length)
  | Variant.symbol s => Option.some (mix 17 s.length)
  | Variant.staticSymbol s => Option.some (mix 18 s.length)
  | Variant.list xs =>
    match hashVariantList xs with
    | Option.some h => Option.some (mix 19 h)
    | Option.none => Option.none
  | Variant.map _ => Option.none
  | Variant.described d v =>
    match hashVariant v with
    | Option.some h => Option.some (mix (mix 21 d) h)
    | Option.none => Option.none

/-- Element-wise hashing of a `Vec<Variant>` (derived `Hash` for the `List`
newtype of the codec's types module): panics as soon as one element's hash
panics. -/
def hashVariantList : List Variant → Option Nat
  | [] => Option.some 0
  | v :: vs =>
    match hashVariant v, hashVariantList vs with
    | Option.some h, Option.some t => Option.some (mix h t)
    | _, _ => Option.none

end

mutual

/-- Whether a `Variant` contains no `Map` anywhere (itself included):
hashing is total exactly on such values. -/
def mapFree : Variant → Bool
  | Variant.list xs => mapFreeList xs
  | Variant.map _ => false
  | Variant.described _ v => mapFree v
  | _ => true

/-- `mapFree` on every element of a list. -/
def mapFreeList : List Variant → Bool
  | [] => true
  | v :: vs => mapFree v && mapFreeList vs

end

end Types

example : Types.hashVariant (Types.Variant.described 0 (Types.Variant.map [])) = Option.none := by
  simp [Types.hashVariant]

example : (Types.hashVariant (Types.Variant.list [Types.Variant.null])).isSome = true := by
  simp [Types.hashVariant, Types.hashVariantList]

namespace Sender

lemma u32sub_one (c : Nat) (hc : 0 < c) (hcU : c < U32) : u32sub c 1 = c - 1 := by
  unfold u32sub
  rw [show c + U32 - 1 = (c - 1) + U32 by omega, Nat.add_mod_right]
  exact Nat.mod_eq_of_lt (by omega)

lemma drainPending_spec : ∀ (q : List Nat) (c dc : Nat), 0 < c → c < U32 → dc < U32 →
    (drainPending c dc q).1.map SendEvent.id = q.take (min q.length c) ∧
    (drainPending c dc q).2.1 = c - min q.length c ∧
    (drainPending c dc q).2.2.1 = (dc + min q.length c) % U32 ∧
    (drainPending c dc q).2.2.2 = q.drop (min q.length c) ∧
    ∀ e ∈ (drainPending c dc q).1, ∃ m p, e = SendEvent.emitted m p ∧ 0 < p ∧ p < U32 := by
  intro q
  induction q with
  | nil =>
    intro c dc hc hcU hdc
    simp [drainPending, Nat.mod_eq_of_lt hdc]
  | cons m rest ih =>
    intro c dc hc hcU hdc
    have hsub : u32sub c 1 = c - 1 := u32sub_one c hc hcU
    have hadd : u32add dc 1 = (dc + 1) % U32 := rfl
    have hunfold : drainPending c dc (m :: rest) =
        (if c - 1 = 0 then ([SendEvent.emitted m c], c - 1, (dc + 1) % U32, rest)
         else
           (SendEvent.emitted m c :: (drainPending (c - 1) ((dc + 1) % U32) rest).1,
            (drainPending (c - 1) ((dc + 1) % U32) rest).2.1,
            (drainPending (c - 1) ((dc + 1) % U32) rest).2.2.1,
            (drainPending (c - 1) ((dc + 1) % U32) rest).2.2.2)) := by
      rw [drainPending, hsub, hadd]
    by_cases h1 : c - 1 = 0
    · have hc1 : c = 1 := by omega
      subst hc1
      have hmin : min (m :: rest).length 1 = 1 := by
        simp only [List.length_cons]; omega
      rw [hunfold, if_pos h1, hmin]
      refine ⟨?_, ?_, ?_, ?_, ?_⟩
      · simp [SendEvent.id]
      · rfl
      · rfl
      · rfl
      · intro e he
        simp only [List.mem_singleton] at he
        exact ⟨m, 1, by simp [he], by omega, by omega⟩
    · have hdc' : (dc + 1) % U32 < U32 := Nat.mod_lt _ (by unfold U32; omega)
      obtain ⟨ih1, ih2, ih3, ih4, ih5⟩ :=
        ih (c - 1) ((dc + 1) % U32) (by omega) (by omega) hdc'
      have hmin : min (m :: rest).length c = min rest.length (c - 1) + 1 := by
        simp only [List.length_cons]; omega
      rw [hunfold, if_neg h1, hmin]
      refine ⟨?_, ?_, ?_, ?_, ?_⟩
      · simp only [List.map_cons, List.take_succ_cons, ih1, SendEvent.id]
      · simp only [ih2]; omega
      · rw [ih3, Nat.mod_add_mod,
          show dc + 1 + min rest.length (c - 1) = dc + (min rest.length (c - 1) + 1) by omega]
      · simp only [List.drop_succ_cons, ih4]
      · intro e he
        simp only [List.mem_cons] at he
        rcases he with he | he
        · exact ⟨m, c, by simp [he], hc, hcU⟩
        · exact ih5 e he

end Sender

namespace Sender

/-- Number of transfers emitted to the session among the recorded events. -/
def emittedCount (evts : List SendEvent) : Nat :=
  (evts.filter SendEvent.isEmitted).length

lemma U32_pos : 0 < U32 := by decide

lemma u32add_lt (a b : Nat) : u32add a b < U32 := Nat.mod_lt _ U32_pos

lemma emittedCount_append (a b : List SendEvent) :
    emittedCount (a ++ b) = emittedCount a + emittedCount b := by
  simp [emittedCount, List.filter_append]

lemma emittedCount_all_emitted (l : List SendEvent)
    (h : ∀ e ∈ l, ∃ m p, e = SendEvent.emitted m p ∧ 0 < p ∧ p < U32) :
    emittedCount l = l.length := by
  unfold emittedCount
  rw [List.filter_eq_self.mpr]
  intro e he
  obtain ⟨m, p, rfl, -, -⟩ := h e he
  rfl

/-- The run invariant of a sender link relative to the list `sent` of
messages passed to `send` so far: the credit is a `u32`; a non-empty
pending queue forces zero credit; the emitted/failed events followed by the
still-pending messages are exactly the sent messages in order; and the
delivery count equals the number of emissions modulo 2^32. -/
def SInv (st : SenderLinkInner × List SendEvent) (sent : List Nat) : Prop :=
  st.1.link_credit < U32 ∧
  (st.1.pending_transfers ≠ [] → st.1.link_credit = 0) ∧
  st.2.map SendEvent.id ++ st.1.pending_transfers = sent ∧
  st.1.delivery_count = emittedCount st.2 % U32

lemma SInv_dc_lt {st sent} (h : SInv st sent) : st.1.delivery_count < U32 := by
  rw [h.2.2.2]
  exact Nat.mod_lt _ U32_pos

lemma sentMsgs_cons (op : Op) (ops : List Op) :
    sentMsgs (op :: ops) =
      (match op with | Op.send m => [m] | _ => []) ++ sentMsgs ops := by
  cases op <;> simp [sentMsgs]

lemma u32add_mod_one (E : Nat) : u32add (E % U32) 1 = (E + 1) % U32 := by
  unfold u32add
  rw [Nat.mod_add_mod]

lemma emittedCount_failed (err : Nat) (l : List Nat) :
    emittedCount (l.map fun m => SendEvent.failed m err) = 0 := by
  induction l with
  | nil => rfl
  | cons a t iht =>
    show emittedCount (t.map fun m => SendEvent.failed m err) = 0
    exact iht

lemma stepAcc_SInv (st : SenderLinkInner × List SendEvent) (sent : List Nat) (op : Op)
    (h : SInv st sent) :
    SInv (stepAcc st op) (sent ++ sentMsgs [op]) ∧
    ∀ e ∈ (stepAcc st op).2, e ∈ st.2 ∨
      (∃ m p, e = SendEvent.emitted m p ∧ 0 < p) ∨ op.isDetach = true := by
  obtain ⟨s, evts⟩ := st
  obtain ⟨hcr, hpz, hord, hdc⟩ := h
  simp only at hcr hpz hord hdc
  have hdclt : s.delivery_count < U32 := by
    rw [hdc]
    exact Nat.mod_lt _ U32_pos
  cases op with
  | send m =>
    have hsm : sentMsgs [Op.send m] = [m] := rfl
    rw [hsm]
    by_cases hz : s.link_credit = 0
    · have hstep : stepAcc (s, evts) (Op.send m) =
          ({ s with pending_transfers := s.pending_transfers ++ [m] }, evts) := by
        simp [stepAcc, send, if_pos hz]
      rw [hstep]
      refine ⟨⟨hcr, fun _ => hz, ?_, hdc⟩, fun e he => Or.inl he⟩
      rw [← List.append_assoc, hord]
    · have hstep : stepAcc (s, evts) (Op.send m) =
          ({ s with link_credit := u32sub s.link_credit 1,
                    delivery_count := u32add s.delivery_count 1 },
           evts ++ [SendEvent.emitted m s.link_credit]) := by
        simp [stepAcc, send, if_neg hz]
      rw [hstep]
      have hpe : s.pending_transfers = [] := by
        by_contra hne
        exact hz (hpz hne)
      refine ⟨⟨?_, by simp [hpe], ?_, ?_⟩, ?_⟩
      · show u32sub s.link_credit 1 < U32
        rw [u32sub_one s.link_credit (Nat.pos_of_ne_zero hz) hcr]
        omega
      · rw [hpe, List.append_nil] at hord
        simp [hpe, hord, SendEvent.id]
      · show u32add s.delivery_count 1 = _
        rw [hdc, u32add_mod_one, emittedCount_append]
        rfl
      · intro e he
        simp only [List.mem_append, List.mem_singleton] at he
        rcases he with he | he
        · exact Or.inl he
        · exact Or.inr (Or.inl ⟨m, s.link_credit, he, Nat.pos_of_ne_zero hz⟩)
  | flow f =>
    have hsm : sentMsgs [Op.flow f] = [] := rfl
    rw [hsm, List.append_nil]
    cases hfc : f.link_credit with
    | none =>
      have hstep : stepAcc (s, evts) (Op.flow f) = (s, evts) := by
        simp [stepAcc, apply_flow, hfc]
      rw [hstep]
      exact ⟨⟨hcr, hpz, hord, hdc⟩, fun e he => Or.inl he⟩
    | some credit =>
      set delta := u32sub (u32add (f.delivery_count.getD 0) credit)
        (u32add s.delivery_count s.link_credit) with hdelta
      have hdlt : delta < U32 := Nat.mod_lt _ U32_pos
      by_cases hpos : 0 < delta
      · by_cases hz : s.link_credit = 0
        · have hnc : u32add s.link_credit delta = delta := by
            rw [hz]
            show (0 + delta) % U32 = delta
            rw [Nat.zero_add]
            exact Nat.mod_eq_of_lt hdlt
          have hstep : stepAcc (s, evts) (Op.flow f) =
              ({ s with
                  link_credit := (drainPending delta s.delivery_count s.pending_transfers).2.1,
                  delivery_count := (drainPending delta s.delivery_count s.pending_transfers).2.2.1,
                  pending_transfers := (drainPending delta s.delivery_count s.pending_transfers).2.2.2 },
               evts ++ (drainPending delta s.delivery_count s.pending_transfers).1) := by
            simp only [stepAcc, apply_flow, hfc, ← hdelta, if_pos hpos, if_pos hz, hnc]
          rw [hstep]
          obtain ⟨d1, d2, d3, d4, d5⟩ :=
            drainPending_spec s.pending_transfers delta s.delivery_count hpos hdlt hdclt
          set k := min s.pending_transfers.length delta with hk
          refine ⟨⟨?_, ?_, ?_, ?_⟩, ?_⟩
          · show (drainPending delta s.delivery_count s.pending_transfers).2.1 < U32
            rw [d2]
            omega
          · show (drainPending delta s.delivery_count s.pending_transfers).2.2.2 ≠ [] → _
            intro hne
            rw [d4] at hne
            have hklen : k < s.pending_transfers.length := by
              by_contra hge
              exact hne (List.drop_eq_nil_of_le (by omega))
            have hke : k = delta := by omega
            show (drainPending delta s.delivery_count s.pending_transfers).2.1 = 0
            rw [d2, hke]
            omega
          · show List.map SendEvent.id
                (evts ++ (drainPending delta s.delivery_count s.pending_transfers).1) ++
                (drainPending delta s.delivery_count s.pending_transfers).2.2.2 = sent
            rw [List.map_append, d1, d4, List.append_assoc, List.take_append_drop, hord]
          · show (drainPending delta s.delivery_count s.pending_transfers).2.2.1 = _
            have hlen : (drainPending delta s.delivery_count s.pending_transfers).1.length = k := by
              have hlm := congrArg List.length d1
              rw [List.length_map] at hlm
              rw [hlm, List.length_take]
              omega
            rw [d3, emittedCount_append, emittedCount_all_emitted _ d5, hlen, hdc,
              Nat.mod_add_mod]
          · intro e he
            simp only [List.mem_append] at he
            rcases he with he | he
            · exact Or.inl he
            · obtain ⟨m, p, rfl, hp, -⟩ := d5 e he
              exact Or.inr (Or.inl ⟨m, p, rfl, hp⟩)
        · have hpe : s.pending_transfers = [] := by
            by_contra hne
            exact hz (hpz hne)
          have hstep : stepAcc (s, evts) (Op.flow f) =
              ({ s with link_credit := u32add s.link_credit delta }, evts) := by
            simp only [stepAcc, apply_flow, hfc, ← hdelta, if_pos hpos, if_neg hz]
            simp
          rw [hstep]
          exact ⟨⟨u32add_lt _ _, by simp [hpe], hord, hdc⟩, fun e he => Or.inl he⟩
      · have hstep : stepAcc (s, evts) (Op.flow f) =
            ({ s with link_credit :=
                u32add s.link_credit (max 0 (u32add s.link_credit delta)) }, evts) := by
          simp only [stepAcc, apply_flow, hfc, ← hdelta, if_neg hpos]
          simp
        rw [hstep]
        refine ⟨⟨u32add_lt _ _, ?_, hord, hdc⟩, fun e he => Or.inl he⟩
        intro hne
        have hz := hpz hne
        have hd0 : delta = 0 := by omega
        show u32add s.link_credit (max 0 (u32add s.link_credit delta)) = 0
        rw [hz, hd0]
        rfl
  | detach err =>
    have hsm : sentMsgs [Op.detach err] = [] := rfl
    rw [hsm, List.append_nil]
    have hstep : stepAcc (s, evts) (Op.detach err) =
        ({ s with pending_transfers := [], error := Option.some err },
         evts ++ s.pending_transfers.map fun m => SendEvent.failed m err) := by
      simp [stepAcc, detached]
    rw [hstep]
    refine ⟨⟨hcr, by simp, ?_, ?_⟩, ?_⟩
    · show List.map SendEvent.id
          (evts ++ s.pending_transfers.map fun m => SendEvent.failed m err) ++ [] = sent
      rw [List.append_nil, List.map_append, List.map_map]
      have hco : (SendEvent.id ∘ fun m => SendEvent.failed m err) = id := by
        funext m
        rfl
      rw [hco, List.map_id, hord]
    · show s.delivery_count = _
      rw [hdc, emittedCount_append, emittedCount_failed, Nat.add_zero]
    · intro e he
      simp only [List.mem_append] at he
      rcases he with he | he
      · exact Or.inl he
      · exact Or.inr (Or.inr rfl)

end Sender

namespace Sender

lemma runFrom_append (st : SenderLinkInner × List SendEvent) (xs ys : List Op) :
    runFrom st (xs ++ ys) = runFrom (runFrom st xs) ys := by
  induction xs generalizing st with
  | nil => rfl
  | cons op rest ih =>
    show runFrom (stepAcc st op) (rest ++ ys) = _
    rw [ih]
    rfl

lemma sentMsgs_append (xs ys : List Op) :
    sentMsgs (xs ++ ys) = sentMsgs xs ++ sentMsgs ys := by
  simp [sentMsgs]

lemma runFrom_SInv (ops : List Op) (st : SenderLinkInner × List SendEvent)
    (sent : List Nat) (h : SInv st sent) :
    SInv (runFrom st ops) (sent ++ sentMsgs ops) := by
  induction ops generalizing st sent with
  | nil => simpa [runFrom, sentMsgs]
  | cons op rest ih =>
    have hstep := (stepAcc_SInv st sent op h).1
    have := ih (stepAcc st op) (sent ++ sentMsgs [op]) hstep
    rw [show (op :: rest) = [op] ++ rest from rfl, sentMsgs_append]
    show SInv (runFrom (stepAcc st op) rest) _
    simpa [List.append_assoc] using this

lemma init_SInv : SInv (init, []) [] := by
  refine ⟨by decide, by simp [init], by simp [init], by simp [init, emittedCount]⟩

lemma run_SInv (ops : List Op) : SInv (run ops) (sentMsgs ops) := by
  have := runFrom_SInv ops (init, []) [] init_SInv
  simpa [run] using this

lemma runFrom_events_mono (ops : List Op) (st : SenderLinkInner × List SendEvent) :
    ∃ tail, (runFrom st ops).2 = st.2 ++ tail := by
  induction ops generalizing st with
  | nil => exact ⟨[], by simp [runFrom]⟩
  | cons op rest ih =>
    obtain ⟨tail, htail⟩ := ih (stepAcc st op)
    cases op with
    | send m =>
      refine ⟨(send st.1 m).2 ++ tail, ?_⟩
      rw [runFrom, htail]
      simp [stepAcc]
    | flow f =>
      refine ⟨(apply_flow st.1 f).2 ++ tail, ?_⟩
      rw [runFrom, htail]
      simp [stepAcc]
    | detach e =>
      refine ⟨(detached st.1 e).2 ++ tail, ?_⟩
      rw [runFrom, htail]
      simp [stepAcc]

lemma runFrom_events_shape (ops : List Op) (st : SenderLinkInner × List SendEvent)
    (hops : ∀ op ∈ ops, op.isDetach = false) (sent : List Nat) (h : SInv st sent) :
    ∀ e ∈ (runFrom st ops).2, e ∈ st.2 ∨ ∃ m p, e = SendEvent.emitted m p ∧ 0 < p := by
  induction ops generalizing st sent with
  | nil => intro e he; exact Or.inl he
  | cons op rest ih =>
    intro e he
    rw [runFrom] at he
    have hstep := stepAcc_SInv st sent op h
    have hrec := ih (stepAcc st op) (fun o ho => hops o (List.mem_cons_of_mem _ ho))
      (sent ++ sentMsgs [op]) hstep.1 e he
    rcases hrec with hin | hem
    · rcases hstep.2 e hin with h1 | h2 | h3
      · exact Or.inl h1
      · exact Or.inr h2
      · rw [hops op (List.mem_cons_self _ _)] at h3
        cases h3
    · exact Or.inr hem

end Sender

namespace Sender

lemma run_take_add (ops : List Op) (i j : Nat) (hij : i ≤ j) :
    run (ops.take j) = runFrom (run (ops.take i)) ((ops.drop i).take (j - i)) := by
  have : ops.take j = ops.take i ++ (ops.drop i).take (j - i) := by
    rw [← List.take_add]
    congr 1
    omega
  rw [this, run, runFrom_append]
  rfl

lemma run_events_len_le (ops : List Op) : (run ops).2.length ≤ ops.length := by
  have h := (run_SInv ops).2.2.1
  have hlen := congrArg List.length h
  rw [List.length_append, List.length_map] at hlen
  calc (run ops).2.length ≤ (sentMsgs ops).length := by omega
    _ ≤ ops.length := List.length_filterMap_le _ _

lemma emittedCount_le_length (l : List SendEvent) : emittedCount l ≤ l.length :=
  List.length_filter_le _ _

/-- The invariants of claim C3: every event of a send/flow run is a
transfer emission performed at strictly positive credit (hence
`link_credit` is never decremented at zero and never underflows),
`delivery_count` is monotone along the run, and the emitted transfers are
exactly the longest prefix of the `send`-call sequence that credit
allowed, in FIFO order. -/
def c3Prop (ops : List Op) : Prop :=
  (∀ e ∈ (run ops).2, ∃ m p, e = SendEvent.emitted m p ∧ 0 < p) ∧
  (∀ i j, i ≤ j →
    (run (ops.take i)).1.delivery_count ≤ (run (ops.take j)).1.delivery_count) ∧
  (run ops).2.map SendEvent.id = (sentMsgs ops).take (run ops).2.length

end Sender

/-- C3: for every sequence of `send` calls interleaved with `apply_flow`
calls (no detach, fewer than 2^32 operations), the sender link never hands
a Transfer to the session while `link_credit = 0` (every emission event
carries a positive pre-decrement credit, so the u32 credit never
underflows below zero), `delivery_count` is monotone non-decreasing, and
Transfers reach the session exactly in `send`-call order (the FIFO
`pending_transfers` queue preserves order). -/
theorem sender_send_flow_invariants (ops : List Sender.Op)
    (h1 : ∀ op ∈ ops, op.isDetach = false)
    (h2 : ops.length < U32) :
    Sender.c3Prop ops := by
  refine ⟨?_, ?_, ?_⟩
  · intro e he
    rcases Sender.runFrom_events_shape ops (Sender.init, []) h1 [] Sender.init_SInv e he with
      hin | hem
    · cases hin
    · exact hem
  · intro i j hij
    have hdi := (Sender.run_SInv (ops.take i)).2.2.2
    have hdj := (Sender.run_SInv (ops.take j)).2.2.2
    obtain ⟨tail, htail⟩ :=
      Sender.runFrom_events_mono ((ops.drop i).take (j - i)) (Sender.run (ops.take i))
    rw [← Sender.run_take_add ops i j hij] at htail
    have hbi : Sender.emittedCount (Sender.run (ops.take i)).2 < U32 := by
      calc Sender.emittedCount (Sender.run (ops.take i)).2
          ≤ (Sender.run (ops.take i)).2.length := Sender.emittedCount_le_length _
        _ ≤ (ops.take i).length := Sender.run_events_len_le _
        _ ≤ ops.length := by
            rw [List.length_take]
            omega
        _ < U32 := h2
    have hbj : Sender.emittedCount (Sender.run (ops.take j)).2 < U32 := by
      calc Sender.emittedCount (Sender.run (ops.take j)).2
          ≤ (Sender.run (ops.take j)).2.length := Sender.emittedCount_le_length _
        _ ≤ (ops.take j).length := Sender.run_events_len_le _
        _ ≤ ops.length := by
            rw [List.length_take]
            omega
        _ < U32 := h2
    rw [hdi, hdj, Nat.mod_eq_of_lt hbi, Nat.mod_eq_of_lt hbj, htail,
      Sender.emittedCount_append]
    omega
  · have h := (Sender.run_SInv ops).2.2.1
    have : (Sender.sentMsgs ops).take (Sender.run ops).2.length =
        ((Sender.run ops).2.map Sender.SendEvent.id ++
          (Sender.run ops).1.pending_transfers).take
          ((Sender.run ops).2.map Sender.SendEvent.id).length := by
      rw [h, List.length_map]
    rw [this, List.take_left]

/-- A concrete sender run: two sends under zero credit, a Flow granting 3
credits, then a third send. -/
def c3WitnessOps : List Sender.Op :=
  [Sender.Op.send 1, Sender.Op.send 2,
   Sender.Op.flow { delivery_count := Option.some 0, link_credit := Option.some 3, echo := false },
   Sender.Op.send 3]

/-- Witness for C3 at the concrete run `c3WitnessOps`. -/
theorem sender_send_flow_invariants_witness :
    (∀ op ∈ c3WitnessOps, op.isDetach = false) ∧ c3WitnessOps.length < U32 ∧
    Sender.c3Prop c3WitnessOps :=
  ⟨by decide, by decide, sender_send_flow_invariants c3WitnessOps (by decide) (by decide)⟩

namespace Sender

/-- The closed form of `apply_flow` on a positive-delta Flow, as claim C4
states it: credit grows by exactly the delta and the pending queue is
drained FIFO up to the smaller of queue length and available credit. -/
def c4Prop (s : SenderLinkInner) (f : Flow) : Prop :=
  (apply_flow s f).1.link_credit =
      s.link_credit + effDelta s f -
        min s.pending_transfers.length (s.link_credit + effDelta s f) ∧
  (apply_flow s f).1.delivery_count =
      (s.delivery_count +
        min s.pending_transfers.length (s.link_credit + effDelta s f)) % U32 ∧
  (apply_flow s f).1.pending_transfers =
      s.pending_transfers.drop
        (min s.pending_transfers.length (s.link_credit + effDelta s f)) ∧
  (apply_flow s f).2.map SendEvent.id =
      s.pending_transfers.take
        (min s.pending_transfers.length (s.link_credit + effDelta s f))

end Sender

/-- C4: on every reachable sender link (any state produced by a run of
operations) and every inbound Flow carrying `link_credit` whose effective
delta is positive (and does not overflow the u32 credit), `apply_flow`
increases `link_credit` by exactly the delta and then drains the pending
queue from the front — one credit decrement and one `delivery_count`
increment per drained transfer — stopping exactly when the queue empties
or credit reaches zero, regardless of the credit held before the Flow. -/
theorem sender_apply_flow_positive_delta (ops : List Sender.Op) (f : Sender.Flow) (c : Nat)
    (hc : f.link_credit = Option.some c)
    (hd : 0 < Sender.effDelta (Sender.run ops).1 f)
    (hw : (Sender.run ops).1.link_credit + Sender.effDelta (Sender.run ops).1 f < U32) :
    Sender.c4Prop (Sender.run ops).1 f := by
  obtain ⟨hcr, hpz, hord, hdcm⟩ := Sender.run_SInv ops
  set s := (Sender.run ops).1 with hs
  have hdclt : s.delivery_count < U32 := by
    rw [hdcm]
    exact Nat.mod_lt _ Sender.U32_pos
  have heff : Sender.effDelta s f =
      u32sub (u32add (f.delivery_count.getD 0) c)
        (u32add s.delivery_count s.link_credit) := by
    rw [Sender.effDelta, hc]
    rfl
  set delta := Sender.effDelta s f with hdelta
  have hdlt : delta < U32 := by omega
  by_cases hz : s.link_credit = 0
  · have hnc : u32add s.link_credit delta = delta := by
      rw [hz]
      show (0 + delta) % U32 = delta
      rw [Nat.zero_add]
      exact Nat.mod_eq_of_lt hdlt
    have hstep : Sender.apply_flow s f =
        ({ s with
            link_credit := (Sender.drainPending delta s.delivery_count s.pending_transfers).2.1,
            delivery_count := (Sender.drainPending delta s.delivery_count s.pending_transfers).2.2.1,
            pending_transfers := (Sender.drainPending delta s.delivery_count s.pending_transfers).2.2.2 },
         (Sender.drainPending delta s.delivery_count s.pending_transfers).1) := by
      rw [Sender.apply_flow, hc]
      simp only [← heff, ← hdelta, if_pos hd, if_pos hz, hnc]
    obtain ⟨d1, d2, d3, d4, d5⟩ :=
      Sender.drainPending_spec s.pending_transfers delta s.delivery_count hd hdlt hdclt
    rw [Sender.c4Prop, hstep, hz, Nat.zero_add]
    exact ⟨d2, d3, d4, d1⟩
  · have hpe : s.pending_transfers = [] := by
      by_contra hne
      exact hz (hpz hne)
    have hnc : u32add s.link_credit delta = s.link_credit + delta :=
      Nat.mod_eq_of_lt hw
    have hstep : Sender.apply_flow s f =
        ({ s with link_credit := u32add s.link_credit delta }, []) := by
      rw [Sender.apply_flow, hc]
      simp only [← heff, ← hdelta, if_pos hd, if_neg hz]
    rw [Sender.c4Prop, hstep, hpe]
    simp only [List.length_nil, Nat.zero_min, List.drop_nil, List.take_nil, Nat.sub_zero,
      Nat.add_zero, List.map_nil]
    exact ⟨hnc, (Nat.mod_eq_of_lt hdclt).symm, trivial, trivial⟩

/-- A concrete run for the C4 witness: one send queued at zero credit. -/
def c4WitnessOps : List Sender.Op := [Sender.Op.send 5]

/-- The Flow used by the C4 witness: grants 2 credits. -/
def c4WitnessFlow : Sender.Flow :=
  { delivery_count := Option.some 0, link_credit := Option.some 2, echo := false }

/-- Witness for C4: the queued transfer is drained by a Flow granting 2
credits. -/
theorem sender_apply_flow_positive_delta_witness :
    c4WitnessFlow.link_credit = Option.some 2 ∧
    0 < Sender.effDelta (Sender.run c4WitnessOps).1 c4WitnessFlow ∧
    (Sender.run c4WitnessOps).1.link_credit +
      Sender.effDelta (Sender.run c4WitnessOps).1 c4WitnessFlow < U32 ∧
    Sender.c4Prop (Sender.run c4WitnessOps).1 c4WitnessFlow :=
  ⟨by decide, by decide, by decide,
   sender_apply_flow_positive_delta c4WitnessOps c4WitnessFlow 2
     (by decide) (by decide) (by decide)⟩

/-- The sender state reached after a single Flow granting 5 credits. -/
def c1State : Sender.SenderLinkInner :=
  { delivery_count := 0, link_credit := 5, pending_transfers := [], error := Option.none }

/-- The Flow used for C1: `delivery_count = 0`, `link_credit = 5`, so the
effective delta against `c1State` is zero. -/
def c1Flow : Sender.Flow :=
  { delivery_count := Option.some 0, link_credit := Option.some 5, echo := false }

/-- C1 (failing input): `c1State` is reachable (one granting Flow from a
fresh link); a second identical Flow has effective delta 0, yet
`apply_flow` executes `link_credit += max(0, link_credit + delta)` and
doubles the credit to 10 instead of leaving it at
`max(0, link_credit + 0) = 5` as the claim requires. -/
theorem sender_apply_flow_zero_delta_doubles_credit :
    (Sender.run [Sender.Op.flow c1Flow]).1 = c1State ∧
    Sender.effDelta c1State c1Flow = 0 ∧
    (Sender.apply_flow c1State c1Flow).1.link_credit = 10 ∧
    max 0 (c1State.link_credit + 0) = 5 := by
  decide

namespace Sender

lemma stepAcc_pending_nil (st : SenderLinkInner × List SendEvent) (op : Op)
    (hsend : op.isSend = false) (hp : st.1.pending_transfers = []) :
    (stepAcc st op).1.pending_transfers = [] := by
  cases op with
  | send m => cases hsend
  | flow f =>
    show (apply_flow st.1 f).1.pending_transfers = []
    rw [apply_flow]
    cases hfc : f.link_credit with
    | none => exact hp
    | some credit =>
      simp only
      split
      · split
        · simp only [hp, drainPending]
        · exact hp
      · exact hp
  | detach e => rfl

lemma runFrom_pending_nil (ops : List Op) (st : SenderLinkInner × List SendEvent)
    (hsend : ∀ op ∈ ops, op.isSend = false) (hp : st.1.pending_transfers = []) :
    (runFrom st ops).1.pending_transfers = [] := by
  induction ops generalizing st with
  | nil => exact hp
  | cons op rest ih =>
    exact ih (stepAcc st op) (fun o ho => hsend o (List.mem_cons_of_mem _ ho))
      (stepAcc_pending_nil st op (hsend op (List.mem_cons_self _ _)) hp)

/-- The amended C7 property: after a run whose final failure is a detach
not followed by further sends, no promise is left in the queue and every
sent message has exactly one emitted-or-failed event; and `detached` fails
exactly the promises queued at that moment with the detach error. -/
def c7Prop (ops : List Op) : Prop :=
  (run ops).1.pending_transfers = [] ∧
  (∀ m ∈ sentMsgs ops, ((run ops).2.map SendEvent.id).count m = 1) ∧
  ∀ (s : SenderLinkInner) (err : Nat),
    detached s err =
      ({ s with pending_transfers := [], error := Option.some err },
       s.pending_transfers.map fun m => SendEvent.failed m err)

end Sender

/-- C7 (amended): in every run `pre ++ [detach] ++ post` in which no send
follows the detach and the sent message ids are distinct, every promise
created by `send` is disposed exactly once — emitted to the session or
failed — and none remains queued; `detached` fails precisely the promises
pending at that moment with the detach error.  (The unamended claim fails
because `send` does not consult the error flag: a send after the failure
can leave its promise queued forever, see the counterexample.) -/
theorem sender_promises_resolved_once (pre post : List Sender.Op) (e : Nat)
    (h1 : ∀ op ∈ post, op.isSend = false)
    (h2 : (Sender.sentMsgs (pre ++ Sender.Op.detach e :: post)).Nodup) :
    Sender.c7Prop (pre ++ Sender.Op.detach e :: post) := by
  have hsplit : pre ++ Sender.Op.detach e :: post =
      (pre ++ [Sender.Op.detach e]) ++ post := by
    simp
  have hpnil : (Sender.run (pre ++ Sender.Op.detach e :: post)).1.pending_transfers = [] := by
    rw [hsplit, Sender.run, Sender.runFrom_append]
    refine Sender.runFrom_pending_nil post _ h1 ?_
    rw [← Sender.run, Sender.run, Sender.runFrom_append]
    rfl
  refine ⟨hpnil, ?_, fun s err => rfl⟩
  intro m hm
  have hord := (Sender.run_SInv (pre ++ Sender.Op.detach e :: post)).2.2.1
  rw [hpnil, List.append_nil] at hord
  rw [hord]
  exact List.count_eq_one_of_mem h2 hm

/-- The run used by the C7 witness and counterexample contexts: two sends,
a granting Flow that emits the first, then a detach failing the second. -/
def c7WitnessPre : List Sender.Op :=
  [Sender.Op.send 1, Sender.Op.send 2,
   Sender.Op.flow { delivery_count := Option.some 0, link_credit := Option.some 1, echo := false }]

/-- Witness for C7 (amended) on a concrete run ending in a detach. -/
theorem sender_promises_resolved_once_witness :
    (∀ op ∈ ([] : List Sender.Op), op.isSend = false) ∧
    (Sender.sentMsgs (c7WitnessPre ++ Sender.Op.detach 9 :: [])).Nodup ∧
    Sender.c7Prop (c7WitnessPre ++ Sender.Op.detach 9 :: []) :=
  ⟨by decide, by decide,
   sender_promises_resolved_once c7WitnessPre [] 9 (by decide) (by decide)⟩

/-- C7 (counterexample): a `send` performed after the link has already
been detached with error 7 re-enqueues its promise without checking the
error — the run ends with the link terminally failed, the promise of
message 1 still pending, and no emitted or failed event for it, so that
promise is never resolved. -/
theorem sender_send_after_detach_unresolved :
    (Sender.run [Sender.Op.detach 7, Sender.Op.send 1]).1.error = Option.some 7 ∧
    (Sender.run [Sender.Op.detach 7, Sender.Op.send 1]).1.pending_transfers = [1] ∧
    (Sender.run [Sender.Op.detach 7, Sender.Op.send 1]).2 = [] := by
  decide





namespace Receiver

lemma admittedCount_append (a b : List RcvEvent) :
    admittedCount (a ++ b) = admittedCount a + admittedCount b := by
  simp [admittedCount, List.filter_append]

lemma rcv_count_inv (ops : List Op) :
    ∀ (st : ReceiverLinkInner × List RcvEvent) (g : Nat),
      st.1.credit + admittedCount st.2 = g → g + grantedSum ops < U32 →
      (runFrom st ops).1.credit + admittedCount (runFrom st ops).2 =
        g + grantedSum ops := by
  induction ops with
  | nil =>
    intro st g hg _
    simpa [runFrom, grantedSum] using hg
  | cons op rest ih =>
    intro st g hg hlt
    obtain ⟨s, evts⟩ := st
    simp only at hg
    cases op with
    | grant n =>
      have hcn : s.credit + n < U32 := by
        have : grantedSum (Op.grant n :: rest) = n + grantedSum rest := rfl
        omega
      have hadd : u32add s.credit n = s.credit + n := Nat.mod_eq_of_lt hcn
      have hstep : stepAcc (s, evts) (Op.grant n) =
          ({ s with credit := u32add s.credit n },
           evts ++ [RcvEvent.flowSent s.handle s.delivery_count n]) := rfl
      show (runFrom (stepAcc (s, evts) (Op.grant n)) rest).1.credit +
          admittedCount (runFrom (stepAcc (s, evts) (Op.grant n)) rest).2 = _
      rw [hstep]
      have := ih ({ s with credit := u32add s.credit n },
          evts ++ [RcvEvent.flowSent s.handle s.delivery_count n]) (g + n)
        (by
          simp only [admittedCount_append, hadd]
          have : admittedCount [RcvEvent.flowSent s.handle s.delivery_count n] = 0 := rfl
          omega)
        (by
          have : grantedSum (Op.grant n :: rest) = n + grantedSum rest := rfl
          omega)
      rw [this]
      have : grantedSum (Op.grant n :: rest) = n + grantedSum rest := rfl
      omega
    | transfer t =>
      have hgs : grantedSum (Op.transfer t :: rest) = grantedSum rest := rfl
      by_cases hz : s.credit = 0
      · have hstep : (stepAcc (s, evts) (Op.transfer t)).1.credit = s.credit ∧
            admittedCount (stepAcc (s, evts) (Op.transfer t)).2 = admittedCount evts := by
          show (handle_transfer s t).1.credit = s.credit ∧
            admittedCount (evts ++ (handle_transfer s t).2) = admittedCount evts
          rw [handle_transfer, if_pos hz, close]
          by_cases hcl : s.closed
          · rw [if_pos hcl]
            simp [admittedCount_append, admittedCount]
          · rw [if_neg hcl, detach_receiver_link]
            refine ⟨rfl, ?_⟩
            simp only [admittedCount_append]
            have : admittedCount [RcvEvent.detachSent ErrorCond.transferLimitExceeded] = 0 := rfl
            omega
        show (runFrom (stepAcc (s, evts) (Op.transfer t)) rest).1.credit +
            admittedCount (runFrom (stepAcc (s, evts) (Op.transfer t)) rest).2 = _
        have harg1 : (stepAcc (s, evts) (Op.transfer t)).1.credit +
            admittedCount (stepAcc (s, evts) (Op.transfer t)).2 = g := by
          rw [hstep.1, hstep.2]
          exact hg
        have harg2 : g + grantedSum rest < U32 := by omega
        rw [ih (stepAcc (s, evts) (Op.transfer t)) g harg1 harg2, hgs]
      · have hcu : s.credit < U32 := by
          have : grantedSum rest ≤ grantedSum (Op.transfer t :: rest) := by rw [hgs]
          omega
        have hsub : u32sub s.credit 1 = s.credit - 1 :=
          Sender.u32sub_one s.credit (Nat.pos_of_ne_zero hz) hcu
        have hstep : (stepAcc (s, evts) (Op.transfer t)).1.credit = s.credit - 1 ∧
            admittedCount (stepAcc (s, evts) (Op.transfer t)).2 = admittedCount evts + 1 := by
          show (handle_transfer s t).1.credit = s.credit - 1 ∧
            admittedCount (evts ++ (handle_transfer s t).2) = admittedCount evts + 1
          rw [handle_transfer, if_neg hz]
          by_cases hlen : (s.queue ++ [t]).length = 1
          · rw [if_pos hlen]
            refine ⟨hsub, ?_⟩
            show admittedCount (evts ++ [RcvEvent.admitted t, RcvEvent.wake]) =
              admittedCount evts + 1
            rw [admittedCount_append]
            rfl
          · rw [if_neg hlen]
            refine ⟨hsub, ?_⟩
            show admittedCount (evts ++ [RcvEvent.admitted t]) = admittedCount evts + 1
            rw [admittedCount_append]
            rfl
        show (runFrom (stepAcc (s, evts) (Op.transfer t)) rest).1.credit +
            admittedCount (runFrom (stepAcc (s, evts) (Op.transfer t)) rest).2 = _
        have harg1 : (stepAcc (s, evts) (Op.transfer t)).1.credit +
            admittedCount (stepAcc (s, evts) (Op.transfer t)).2 = g := by
          rw [hstep.1, hstep.2]
          omega
        have harg2 : g + grantedSum rest < U32 := by omega
        rw [ih (stepAcc (s, evts) (Op.transfer t)) g harg1 harg2, hgs]
    | poll =>
      have hgs : grantedSum (Op.poll :: rest) = grantedSum rest := rfl
      have hstep : (stepAcc (s, evts) Op.poll).1.credit = s.credit ∧
          (stepAcc (s, evts) Op.poll).2 = evts := by
        show (poll s).2.credit = s.credit ∧ evts = evts
        refine ⟨?_, rfl⟩
        rw [poll]
        cases hq : s.queue with
        | nil =>
          by_cases hc : s.closed
          · rw [if_pos hc]
          · rw [if_neg hc]
        | cons a l => rfl
      show (runFrom (stepAcc (s, evts) Op.poll) rest).1.credit +
          admittedCount (runFrom (stepAcc (s, evts) Op.poll) rest).2 = _
      have harg1 : (stepAcc (s, evts) Op.poll).1.credit +
          admittedCount (stepAcc (s, evts) Op.poll).2 = g := by
        rw [hstep.1, hstep.2]
        exact hg
      have harg2 : g + grantedSum rest < U32 := by omega
      rw [ih (stepAcc (s, evts) Op.poll) g harg1 harg2, hgs]

lemma stepAcc_reg (st : ReceiverLinkInner × List RcvEvent) (op : Op)
    (h : st.1.registered = true → st.1.queue = []) :
    (stepAcc st op).1.registered = true → (stepAcc st op).1.queue = [] := by
  obtain ⟨s, evts⟩ := st
  obtain ⟨hdl, cr, dc, q, cl, reg⟩ := s
  simp only at h
  cases op with
  | grant n => exact h
  | transfer t =>
    show (handle_transfer (ReceiverLinkInner.mk hdl cr dc q cl reg) t).1.registered = true →
      (handle_transfer (ReceiverLinkInner.mk hdl cr dc q cl reg) t).1.queue = []
    by_cases hz : cr = 0
    · by_cases hcl : cl = true
      · simp [handle_transfer, close, hz, hcl]
        intro hr
        exact h hr
      · simp only [Bool.not_eq_true] at hcl
        simp [handle_transfer, close, detach_receiver_link, hz, hcl]
        intro hr
        exact h hr
    · by_cases hq : q = []
      · simp [handle_transfer, hz, hq]
      · simp [handle_transfer, hz, hq]
        cases reg with
        | false => rfl
        | true => exact absurd (h rfl) hq
  | poll =>
    show (poll (ReceiverLinkInner.mk hdl cr dc q cl reg)).2.registered = true →
      (poll (ReceiverLinkInner.mk hdl cr dc q cl reg)).2.queue = []
    cases hq : q with
    | nil =>
      by_cases hcl : cl = true
      · simp [poll, hcl]
      · simp only [Bool.not_eq_true] at hcl
        simp [poll, hcl]
    | cons a l =>
      simp [poll]
      intro hr
      exact absurd (h hr) (by simp [hq])

lemma runFrom_reg (ops : List Op) (st : ReceiverLinkInner × List RcvEvent)
    (h : st.1.registered = true → st.1.queue = []) :
    (runFrom st ops).1.registered = true → (runFrom st ops).1.queue = [] := by
  induction ops generalizing st with
  | nil => exact h
  | cons op rest ih => exact ih (stepAcc st op) (stepAcc_reg st op h)

end Receiver

namespace Receiver

/-- The C5 property at a receiver state reached by `ops`: a transfer at
zero credit is dropped and the link detached with
`transfer-limit-exceeded`; a transfer with credit admits (decrement
credit, increment delivery count, FIFO append, wake the registered
reader); and the number of admitted transfers never exceeds the total
granted credit. -/
def c5Prop (ops : List Op) (t : Nat) : Prop :=
  ((run ops).1.credit = 0 →
    handle_transfer (run ops).1 t =
      ({ (run ops).1 with closed := true },
       [RcvEvent.detachSent ErrorCond.transferLimitExceeded])) ∧
  (0 < (run ops).1.credit →
    (handle_transfer (run ops).1 t).1.credit = (run ops).1.credit - 1 ∧
    (handle_transfer (run ops).1 t).1.delivery_count =
      ((run ops).1.delivery_count + 1) % U32 ∧
    (handle_transfer (run ops).1 t).1.queue = (run ops).1.queue ++ [t] ∧
    (handle_transfer (run ops).1 t).2.head? = Option.some (RcvEvent.admitted t) ∧
    ((run ops).1.registered = true →
      (handle_transfer (run ops).1 t).1.registered = false)) ∧
  admittedCount (run ops).2 ≤ grantedSum ops


end Receiver

/-- C5: on every receiver link reached by a run with `closed = false` and
total granted credit below 2^32, `handle_transfer` at zero credit does not
enqueue the transfer and detaches the link with
`amqp:link:transfer-limit-exceeded`; with positive credit it decrements
`credit`, increments `delivery_count`, appends the transfer to the ingress
queue in FIFO position and wakes any registered reader; consequently the
number of admitted transfers never exceeds the total credit granted. -/
theorem receiver_transfer_admission (ops : List Receiver.Op) (t : Nat)
    (h1 : (Receiver.run ops).1.closed = false)
    (h2 : Receiver.grantedSum ops < U32) :
    Receiver.c5Prop ops t := by
  have hcount := Receiver.rcv_count_inv ops (Receiver.initRcv, []) 0
    (by rfl) (by simpa using h2)
  rw [← Receiver.run] at hcount
  have hreg := Receiver.runFrom_reg ops (Receiver.initRcv, [])
    (by intro hfalse; cases hfalse)
  rw [← Receiver.run] at hreg
  refine ⟨?_, ?_, ?_⟩
  · intro hz
    rw [Receiver.handle_transfer, if_pos hz, Receiver.close,
      if_neg (by rw [h1]; exact Bool.false_ne_true), Receiver.detach_receiver_link]
  · intro hpos
    have hcu : (Receiver.run ops).1.credit < U32 := by omega
    have hsub : u32sub (Receiver.run ops).1.credit 1 = (Receiver.run ops).1.credit - 1 :=
      Sender.u32sub_one (Receiver.run ops).1.credit hpos hcu
    have hz : ¬ (Receiver.run ops).1.credit = 0 := by omega
    rw [Receiver.handle_transfer, if_neg hz]
    by_cases hlen : ((Receiver.run ops).1.queue ++ [t]).length = 1
    · rw [if_pos hlen]
      exact ⟨hsub, rfl, rfl, rfl, fun _ => rfl⟩
    · rw [if_neg hlen]
      refine ⟨hsub, rfl, rfl, rfl, ?_⟩
      intro hr
      have hq := hreg hr
      rw [hq] at hlen
      cases hlen rfl
  · omega

/-- A concrete receiver run for the C5 witness: grant one credit, admit
one transfer (exhausting credit). -/
def c5WitnessOps : List Receiver.Op := [Receiver.Op.grant 1, Receiver.Op.transfer 7]

/-- Witness for C5 at the run `c5WitnessOps` (credit now zero: the next
transfer triggers the detach branch). -/
theorem receiver_transfer_admission_witness :
    (Receiver.run c5WitnessOps).1.closed = false ∧
    Receiver.grantedSum c5WitnessOps < U32 ∧
    Receiver.c5Prop c5WitnessOps 8 :=
  ⟨by decide, by decide,
   receiver_transfer_admission c5WitnessOps 8 (by decide) (by decide)⟩

namespace Receiver

/-- The amended C6 property: `set_link_credit` adds `n` to the local
credit and posts exactly one link-scoped Flow carrying the handle, the
current delivery count and the increment `n`; `n` equals the post-grant
credit only when the prior credit was zero. -/
def c6Prop (s : ReceiverLinkInner) (n : Nat) : Prop :=
  set_link_credit s n =
    ({ s with credit := u32add s.credit n },
     [RcvEvent.flowSent s.handle s.delivery_count n]) ∧
  (s.credit = 0 → n < U32 → (set_link_credit s n).1.credit = n)

end Receiver

/-- C6 (amended): for every receiver link and every `n`,
`set_link_credit n` adds `n` to the credit counter and emits exactly one
link-scoped Flow carrying the handle, the current `delivery_count` and the
increment `n` — which coincides with the post-grant credit exactly when
the prior credit was zero. -/
theorem receiver_set_link_credit_flow (s : Receiver.ReceiverLinkInner) (n : Nat) :
    Receiver.c6Prop s n := by
  refine ⟨rfl, ?_⟩
  intro hz hn
  show u32add s.credit n = n
  rw [hz]
  show (0 + n) % U32 = n
  rw [Nat.zero_add]
  exact Nat.mod_eq_of_lt hn

/-- Witness for C6 (amended) on a fresh receiver link granted 3 credits. -/
theorem receiver_set_link_credit_flow_witness :
    Receiver.initRcv.credit = 0 ∧ (3 : Nat) < U32 ∧ Receiver.c6Prop Receiver.initRcv 3 :=
  ⟨by decide, by decide, receiver_set_link_credit_flow Receiver.initRcv 3⟩

/-- C6 (counterexample): granting 5 and then 3 credits leaves the
receiver with credit 8, but the second emitted Flow carries link-credit 3
(the increment), not the post-grant credit 8 — `rcv_link_flow` is called
with the increment argument (src/rcvlink.rs line 163). -/
theorem receiver_second_flow_carries_increment :
    (Receiver.run [Receiver.Op.grant 5, Receiver.Op.grant 3]).1.credit = 8 ∧
    (Receiver.run [Receiver.Op.grant 5, Receiver.Op.grant 3]).2 =
      [Receiver.RcvEvent.flowSent 0 0 5, Receiver.RcvEvent.flowSent 0 0 3] ∧
    (3 : Nat) ≠ 8 := by
  decide

namespace Receiver

/-- The C8 property of `Stream::poll`: pops the front of a non-empty
queue even when closed; returns `None` exactly when closed with an empty
queue; otherwise registers the reader and reports not-ready; and `None`
persists (the stream has ended). -/
def c8Prop (s : ReceiverLinkInner) : Prop :=
  (∀ t rest, s.queue = t :: rest →
    poll s = (PollResult.ready (Option.some t), { s with queue := rest })) ∧
  ((poll s).1 = PollResult.ready Option.none ↔ s.queue = [] ∧ s.closed = true) ∧
  (s.queue = [] → s.closed = false →
    poll s = (PollResult.notReady, { s with registered := true })) ∧
  ((poll s).1 = PollResult.ready Option.none →
    (poll (poll s).2).1 = PollResult.ready Option.none)

end Receiver

/-- C8: receiver-stream `poll` produces `Some(front)` whenever the
ingress queue is non-empty (even on a closed link), `None` exactly when
the link is closed and the queue empty, otherwise registers the reader
and reports not-ready; once `None` has been returned every further `poll`
returns `None` again — the sequence has ended. -/
theorem receiver_stream_poll (s : Receiver.ReceiverLinkInner) :
    Receiver.c8Prop s := by
  obtain ⟨hdl, cr, dc, q, cl, reg⟩ := s
  refine ⟨?_, ?_, ?_, ?_⟩
  · intro t rest hq
    cases hq
    rfl
  · cases q with
    | nil =>
      cases cl with
      | false => simp [Receiver.poll]
      | true => simp [Receiver.poll]
    | cons t rest => simp [Receiver.poll]
  · intro hq hcl
    cases hq
    cases hcl
    rfl
  · cases q with
    | nil =>
      cases cl with
      | false => simp [Receiver.poll]
      | true => simp [Receiver.poll]
    | cons t rest => simp [Receiver.poll]

namespace Hb

/-- The C2 property of a heartbeat tick at timer deadline
`s.deadline`: Close exactly when the local deadline has been reached;
otherwise Heartbeat exactly when the remote deadline has been reached, and
then `expire_remote` is advanced to the current instant; otherwise no
output, with the timer re-armed either way. -/
def c2Prop (s : Heartbeat) (now : Nat) : Prop :=
  (s.expire_local + s.localDl ≤ s.deadline →
    tick s now = (HeartbeatAction.close, s)) ∧
  (s.deadline < s.expire_local + s.localDl →
    ∀ r, s.remote = Option.some r → s.expire_remote + r ≤ s.deadline →
      tick s now =
        (HeartbeatAction.heartbeat,
         { s with deadline := next_expire s, expire_remote := now })) ∧
  (s.deadline < s.expire_local + s.localDl →
    (∀ r, s.remote = Option.some r → s.deadline < s.expire_remote + r) →
      tick s now = (HeartbeatAction.none, { s with deadline := next_expire s }))

end Hb

/-- C2: on each fired heartbeat timer tick the output is exactly one of
None, Heartbeat, Close: Close when the local deadline
`expire_local + local` has been reached; otherwise Heartbeat when the
remote deadline `expire_remote + remote` has been reached — and
`expire_remote` advances to the current instant because the emitted empty
frame is outbound traffic; otherwise None. -/
theorem heartbeat_tick_output (s : Hb.Heartbeat) (now : Nat) :
    Hb.c2Prop s now := by
  refine ⟨?_, ?_, ?_⟩
  · intro h
    rw [Hb.tick, Hb.pollHb, if_pos h]
  · intro h r hr hrem
    rw [Hb.tick, Hb.pollHb, if_neg (by omega)]
    simp only [hr, if_pos hrem]
    rw [Hb.update_remote, if_pos (by simp [hr])]
  · intro h hnone
    rw [Hb.tick, Hb.pollHb, if_neg (by omega)]
    cases hr : s.remote with
    | none => rfl
    | some r =>
      simp only
      rw [if_neg (by have := hnone r hr; omega)]

/-- A concrete heartbeat state whose remote deadline has fired while the
local one has not. -/
def c2WitnessState : Hb.Heartbeat :=
  { expire_local := 0, expire_remote := 0, localDl := 10,
    remote := Option.some 4, deadline := 4 }

/-- Witness for C2 at the state `c2WitnessState`. -/
theorem heartbeat_tick_output_witness : Hb.c2Prop c2WitnessState 4 :=
  heartbeat_tick_output c2WitnessState 4

namespace Handshake

/-- The C9 property of the server handshake on a given first header and
first AMQP frame: end-of-stream fails with Disconnected, a non-AMQP
header fails with Unexpected(expected, got), and on the plain-AMQP header
the expected header is echoed and exactly one Open is exchanged on
channel 0 — a non-Open first frame fails with Unexpected. -/
def c9Prop (cfg : Configuration) (hdr : Option ProtocolId) (frameIn : Option Frame) : Prop :=
  (hdr = Option.none →
    handshake cfg hdr frameIn = (Except.error HandshakeError.disconnected, [])) ∧
  (∀ p, hdr = Option.some p → p ≠ ProtocolId.amqp →
    handshake cfg hdr frameIn =
      (Except.error (HandshakeError.protoUnexpected ProtocolId.amqp p), [])) ∧
  (hdr = Option.some ProtocolId.amqp →
    (frameIn = Option.none →
      handshake cfg hdr frameIn =
        (Except.error HandshakeError.disconnected, [Sent.header ProtocolId.amqp])) ∧
    (∀ o, frameIn = Option.some (Frame.open o) →
      handshake cfg hdr frameIn =
        (Except.ok { cfg := cfg, remoteOpen := o },
         [Sent.header ProtocolId.amqp, Sent.frame 0 (Frame.open cfg.localOpen)])) ∧
    (∀ tag, frameIn = Option.some (Frame.other tag) →
      handshake cfg hdr frameIn =
        (Except.error (HandshakeError.unexpectedFrame (Frame.other tag)),
         [Sent.header ProtocolId.amqp])))

end Handshake

/-- C9: the server-side handshake fails with `Unexpected(expected, got)`
when the first protocol header is not plain AMQP, with `Disconnected` at
end-of-stream; when the header matches it sends the expected header back
and exchanges exactly one Open performative, the reply on channel 0 — a
first AMQP frame that is not Open fails the handshake with an Unexpected
error. -/
theorem server_handshake_header_open (cfg : Handshake.Configuration)
    (hdr : Option Handshake.ProtocolId) (frameIn : Option Handshake.Frame) :
    Handshake.c9Prop cfg hdr frameIn := by
  refine ⟨?_, ?_, ?_⟩
  · intro h
    cases h
    rfl
  · intro p hp hne
    cases hp
    rw [Handshake.handshake, if_neg hne]
  · intro hp
    cases hp
    refine ⟨?_, ?_, ?_⟩
    · intro hf
      cases hf
      rfl
    · intro o hf
      cases hf
      rfl
    · intro tag hf
      cases hf
      rfl

namespace Types

/-- Whether a value was built with the `Map` constructor. -/
def Variant.isMap : Variant → Bool
  | Variant.map _ => true
  | _ => false

mutual

/-- Hashing succeeds exactly on Map-free variants (proof by the same
recursion as `hashVariant`). -/
def hashTotal : (v : Variant) → (hashVariant v).isSome = mapFree v
  | Variant.null => rfl
  | Variant.boolean _ => rfl
  | Variant.ubyte _ => rfl
  | Variant.ushort _ => rfl
  | Variant.uint _ => rfl
  | Variant.ulong _ => rfl
  | Variant.byte _ => rfl
  | Variant.short _ => rfl
  | Variant.int _ => rfl
  | Variant.long _ => rfl
  | Variant.float _ => rfl
  | Variant.double _ => rfl
  | Variant.char _ => rfl
  | Variant.timestamp _ => rfl
  | Variant.uuid _ => rfl
  | Variant.binary _ => rfl
  | Variant.str _ => rfl
  | Variant.symbol _ => rfl
  | Variant.staticSymbol _ => rfl
  | Variant.list xs => by
    have h := hashTotalList xs
    rw [hashVariant, mapFree]
    cases hxs : hashVariantList xs with
    | none =>
      rw [hxs] at h
      simpa using h
    | some hv =>
      rw [hxs] at h
      simpa using h
  | Variant.map entries => by
    rw [hashVariant, mapFree]
    rfl
  | Variant.described d v => by
    have h := hashTotal v
    rw [hashVariant, mapFree]
    cases hv : hashVariant v with
    | none =>
      rw [hv] at h
      simpa using h
    | some hh =>
      rw [hv] at h
      simpa using h

/-- Element-wise version of `hashTotal`. -/
def hashTotalList : (xs : List Variant) → (hashVariantList xs).isSome = mapFreeList xs
  | [] => rfl
  | v :: vs => by
    have h1 := hashTotal v
    have h2 := hashTotalList vs
    rw [hashVariantList, mapFreeList]
    cases hv : hashVariant v with
    | none =>
      rw [hv] at h1
      simp [← h1]
    | some hh =>
      rw [hv] at h1
      cases hvs : hashVariantList vs with
      | none =>
        rw [hvs] at h2
        simp [← h1, ← h2]
      | some ht =>
        rw [hvs] at h2
        simp [← h1, ← h2]

end

/-- The amended C10 property: hashing a `VariantMap` always panics, and
hashing any other variant is total exactly when the value contains no Map
anywhere — nesting a Map inside a `List` or `Described` also diverges. -/
def c10Prop : Prop :=
  (∀ entries, hashVariant (Variant.map entries) = Option.none) ∧
  ∀ v, (hashVariant v).isSome = mapFree v

end Types

/-- C10 (amended): `Hash` for `VariantMap` is `unimplemented!()`, so
hashing any `Map` value panics; every other constructor hashes totally
provided its value contains no nested Map — `List` and `Described` hash
their contained variants, so a Map nested inside them diverges too;
hashing is total exactly on Map-free values. -/
theorem variant_hash_total_iff_map_free : Types.c10Prop :=
  ⟨fun entries => by rw [Types.hashVariant], Types.hashTotal⟩

/-- C10 (counterexample): hashing diverges on a `Described` value — a
constructor other than `Map` — because its inner variant is a Map; this
refutes totality of hashing for every non-Map constructor. -/
theorem variant_described_map_hash_diverges :
    Types.hashVariant (Types.Variant.described 0 (Types.Variant.map [])) = Option.none ∧
    (Types.Variant.described 0 (Types.Variant.map [])).isMap = false := by
  constructor
  · rw [Types.hashVariant, Types.hashVariant]
  · rfl

/-- A concrete closed receiver state with one queued transfer. -/
def c8WitnessState : Receiver.ReceiverLinkInner :=
  { handle := 0, credit := 0, delivery_count := 1, queue := [7],
    closed := true, registered := false }

/-- Witness for C8 at a closed receiver still holding a queued transfer. -/
theorem receiver_stream_poll_witness : Receiver.c8Prop c8WitnessState :=
  receiver_stream_poll c8WitnessState

/-- A concrete local configuration for the handshake witness. -/
def c9WitnessCfg : Handshake.Configuration :=
  { localOpen := { container_id := 1, idle_time_out := Option.some 30000 } }

/-- Witness for C9 on a mismatched SASL header. -/
theorem server_handshake_header_open_witness :
    Handshake.c9Prop c9WitnessCfg (Option.some Handshake.ProtocolId.amqpSasl) Option.none :=
  server_handshake_header_open c9WitnessCfg
    (Option.some Handshake.ProtocolId.amqpSasl) Option.none
